import Mathlib

/-!
Verification of the request/client assembly core of the `cobracurl` Go
package (`request.go`, `client.go`).  The Go functions `BuildRequest` and
`BuildClient` are embedded shallowly: the cobra flag set is replaced by an
explicit record of the flag values the two builders read, Go strings are
Lean `String`s, `float64` option values are embedded as exact rationals,
`time.Duration` is a count of nanoseconds (`Int`), and the fallible
builders return `Except`.  Standard-library routines the builders call
(`strings.*`, `net/url.QueryEscape`, `net/url.Parse`'s scheme phase,
`net/http.Header` operations, basic-auth base64) are modelled byte- and
char-faithfully below, each with a comment naming the Go original.
-/

/-- Models Go `unicode.IsSpace` restricted to the ASCII space characters
(space, tab, newline, vertical tab, form feed, carriage return); the
builders only trim ASCII input. -/
def isGoSpace (c : Char) : Bool :=
  c == ' ' || c == '\t' || c == '\n' || c == Char.ofNat 11 || c == Char.ofNat 12 || c == '\r'

/-- Models Go `strings.TrimSpace` (for ASCII input): drop leading and
trailing whitespace. -/
def trimSpace (s : String) : String :=
  String.mk (((s.data.dropWhile isGoSpace).reverse.dropWhile isGoSpace).reverse)

/-- Helper for `splitN2`: walk the characters, accumulating until the
separator is found. -/
def splitN2Aux (sep : Char) (acc : List Char) : List Char → String × Option String
  | [] => (String.mk acc.reverse, none)
  | c :: rest =>
    if c == sep then (String.mk acc.reverse, some (String.mk rest))
    else splitN2Aux sep (c :: acc) rest

/-- Models Go `strings.SplitN(s, sep, 2)` for a one-character separator:
`(before, some after)` when the separator occurs (split at its first
occurrence), `(s, none)` otherwise.  The Go call yields two parts exactly
when the separator occurs. -/
def splitN2 (s : String) (sep : Char) : String × Option String :=
  splitN2Aux sep [] s.data

/-- Helper for `splitChar`. -/
def splitCharAux (sep : Char) (acc : List Char) : List Char → List String
  | [] => [String.mk acc.reverse]
  | c :: rest =>
    if c == sep then String.mk acc.reverse :: splitCharAux sep [] rest
    else splitCharAux sep (c :: acc) rest

/-- Models Go `strings.Split` with a one-character separator. -/
def splitChar (s : String) (sep : Char) : List String :=
  splitCharAux sep [] s.data

/-- Models Go `strings.Join`. -/
def joinSep (sep : String) : List String → String
  | [] => ""
  | [x] => x
  | x :: rest => x ++ sep ++ joinSep sep rest

/-- Models Go `strings.ToUpper` for the ASCII strings the builders handle
(HTTP method names). -/
def toUpperAscii (s : String) : String :=
  String.mk (s.data.map Char.toUpper)

/-- Models Go `strings.IndexByte(s, c)` at the character level (sound here
because the byte searched for, `=`, is ASCII and therefore always a whole
UTF-8 unit): index of the first occurrence, if any. -/
def indexOfChar (sep : Char) : List Char → Option Nat
  | [] => none
  | c :: rest =>
    if c == sep then some 0 else (indexOfChar sep rest).map (· + 1)

/-- Standard UTF-8 encoding of one code point, as `Nat` byte values; this
is how Go lays out the bytes of a `string`. -/
def utf8Bytes (c : Char) : List Nat :=
  let n := c.toNat
  if n < 128 then [n]
  else if n < 2048 then [192 + n / 64, 128 + n % 64]
  else if n < 65536 then [224 + n / 4096, 128 + (n / 64) % 64, 128 + n % 64]
  else [240 + n / 262144, 128 + (n / 4096) % 64, 128 + (n / 64) % 64, 128 + n % 64]

/-- The bytes of a string under UTF-8, as Go sees them. -/
def strBytes (s : String) : List Nat :=
  s.data.flatMap utf8Bytes

/-- Uppercase hexadecimal digit, as used by Go `net/url`'s percent
escaping. -/
def upperHexDigit (n : Nat) : Char :=
  if n < 10 then Char.ofNat (48 + n) else Char.ofNat (55 + n)

/-- Models Go `net/url.shouldEscape(c, encodeQueryComponent) = false`:
ASCII alphanumerics and `-`, `_`, `.`, `~` stay unescaped in query
components. -/
def queryUnescapedByte (b : Nat) : Bool :=
  (65 ≤ b && b ≤ 90) || (97 ≤ b && b ≤ 122) || (48 ≤ b && b ≤ 57) ||
    b == 45 || b == 95 || b == 46 || b == 126

/-- Escape one byte the way Go `net/url.QueryEscape` does: keep unreserved
bytes, turn a space into `+`, percent-encode the rest with uppercase hex. -/
def escapeQueryByte (b : Nat) : List Char :=
  if queryUnescapedByte b then [Char.ofNat b]
  else if b == 32 then [Char.ofNat 43]
  else [Char.ofNat 37, upperHexDigit (b / 16), upperHexDigit (b % 16)]

/-- Models Go `net/url.QueryEscape`: escape every byte of the string's
UTF-8 form. -/
def queryEscape (s : String) : String :=
  String.mk ((strBytes s).flatMap escapeQueryByte)

/-- The base64 standard alphabet (Go `encoding/base64.StdEncoding`). -/
def base64Index (n : Nat) : Char :=
  if n < 26 then Char.ofNat (65 + n)
  else if n < 52 then Char.ofNat (97 + (n - 26))
  else if n < 62 then Char.ofNat (48 + (n - 52))
  else if n == 62 then Char.ofNat 43
  else Char.ofNat 47

/-- Encode byte triples into base64 sextets with `=` padding, as Go
`base64.StdEncoding.EncodeToString` does. -/
def base64Chunks : List Nat → List Char
  | [] => []
  | [a] => [base64Index (a / 4), base64Index (a % 4 * 16), Char.ofNat 61, Char.ofNat 61]
  | [a, b] => [base64Index (a / 4), base64Index (a % 4 * 16 + b / 16),
      base64Index (b % 16 * 4), Char.ofNat 61]
  | a :: b :: c :: rest => base64Index (a / 4) :: base64Index (a % 4 * 16 + b / 16) ::
      base64Index (b % 16 * 4 + c / 64) :: base64Index (c % 64) :: base64Chunks rest

/-- Models Go `base64.StdEncoding.EncodeToString`. -/
def base64Encode (bs : List Nat) : String :=
  String.mk (base64Chunks bs)

/-- Models Go `net/http`'s `basicAuth`: base64 of `user:password`. -/
def basicAuth (user pass : String) : String :=
  base64Encode (strBytes (user ++ ":" ++ pass))

/-- Models Go `net/textproto.validHeaderFieldByte`: HTTP token characters. -/
def isTokenChar (c : Char) : Bool :=
  c.isAlphanum || c == '!' || c == '#' || c == '$' || c == '%' || c == '&' ||
    c == Char.ofNat 39 || c == '*' || c == '+' || c == '-' || c == '.' ||
    c == '^' || c == '_' || c == Char.ofNat 96 || c == '|' || c == '~'

/-- Canonicalize the case of a header key: uppercase the first letter and
every letter after a hyphen, lowercase the rest (ASCII, exactly as Go
does). -/
def canonicalChars : Bool → List Char → List Char
  | _, [] => []
  | upper, c :: rest =>
    if c == '-' then c :: canonicalChars true rest
    else (if upper then c.toUpper else c.toLower) :: canonicalChars false rest

/-- Models Go `textproto.CanonicalMIMEHeaderKey`: keys containing
non-token characters are returned unchanged, others get canonical case. -/
def canonicalMIMEHeaderKey (s : String) : String :=
  if s.data.all isTokenChar then String.mk (canonicalChars true s.data) else s

/-- Models Go `net/http.Header`: a map from canonical keys to lists of
values.  It is represented as an association list; Go's map is unordered,
but the builders look headers up only by key, so entry order is
unobservable except through Lean-level equality of two requests built by
the same sequence of operations, where it coincides. -/
abbrev Header := List (String × List String)

/-- Replace the value list stored under (already canonical) key `k` with
`[v]`, as Go `Header.Set` does after canonicalizing. -/
def setAssoc : Header → String → String → Header
  | [], k, v => [(k, [v])]
  | e :: rest, k, v => if e.1 == k then (k, [v]) :: rest else e :: setAssoc rest k v

/-- Append `v` to the value list stored under (already canonical) key `k`,
as Go `Header.Add` does after canonicalizing. -/
def addAssoc : Header → String → String → Header
  | [], k, v => [(k, [v])]
  | e :: rest, k, v => if e.1 == k then (e.1, e.2 ++ [v]) :: rest else e :: addAssoc rest k v

/-- The value list stored under (already canonical) key `k`. -/
def lookupVals : Header → String → List String
  | [], _ => []
  | e :: rest, k => if e.1 == k then e.2 else lookupVals rest k

/-- Models Go `http.Header.Set`. -/
def headerSet (h : Header) (k v : String) : Header :=
  setAssoc h (canonicalMIMEHeaderKey k) v

/-- Models Go `http.Header.Add`. -/
def headerAdd (h : Header) (k v : String) : Header :=
  addAssoc h (canonicalMIMEHeaderKey k) v

/-- Models Go `http.Header.Values`. -/
def headerValues (h : Header) (k : String) : List String :=
  lookupVals h (canonicalMIMEHeaderKey k)

/-- Models Go `http.Header.Get`: the first value under the key, or `""`. -/
def headerGet (h : Header) (k : String) : String :=
  (headerValues h k).headD ""

/-- A parsed URL, reduced to the components this package observes.  Go's
`url.URL` carries more fields, but `BuildClient` only stores the parsed
proxy value opaquely and `BuildRequest` only round-trips the URL string. -/
structure GoURL where
  scheme : String
  rest : String
deriving DecidableEq

/-- True for the characters Go `net/url.getScheme` accepts as the first
letter of a scheme. -/
def isSchemeAlpha (c : Char) : Bool :=
  ('a' ≤ c && c ≤ 'z') || ('A' ≤ c && c ≤ 'Z')

/-- Models Go `net/url.getScheme`: scan for `scheme:`; a `:` before any
scheme character is the error `missing protocol scheme`; digits and
`+ - .` may continue but not start a scheme; any other character means the
whole string is scheme-less. `orig` is the full character list, `i` the
position of the head of the third argument within it. -/
def getSchemeAux (orig : List Char) (i : Nat) : List Char → Except String (List Char × List Char)
  | [] => Except.ok ([], orig)
  | c :: rest =>
    if isSchemeAlpha c then getSchemeAux orig (i + 1) rest
    else if c.isDigit || c == '+' || c == '-' || c == '.' then
      (if i == 0 then Except.ok ([], orig) else getSchemeAux orig (i + 1) rest)
    else if c == ':' then
      (if i == 0 then Except.error "missing protocol scheme"
       else Except.ok ((orig.take i).map Char.toLower, orig.drop (i + 1)))
    else Except.ok ([], orig)

/-- Models Go `net/url.Parse` as far as the claims reach: reject control
characters, then split off the scheme (`getScheme`).  The later
component-level validation of host, port and percent escapes is not
modelled and always succeeds here. -/
def urlParse (raw : String) : Except String GoURL :=
  if raw.data.any (fun c => c.toNat < 32 || c.toNat == 127) then
    Except.error "net/url: invalid control character in URL"
  else
    match getSchemeAux raw.data 0 raw.data with
    | Except.error e => Except.error e
    | Except.ok (sch, rest) => Except.ok { scheme := String.mk sch, rest := String.mk rest }

/-- Models Go `net/http.validMethod`: non-empty and made of token
characters only. -/
def validMethod (m : String) : Bool :=
  m ≠ "" && m.data.all isTokenChar

/-- The request descriptor produced by `BuildRequest`.  The target URL is
kept as the raw string handed to `http.NewRequest` (the claims observe the
URL through its string form); cookies land in the `Cookie` header exactly
as Go's `Request.AddCookie` puts them there. -/
structure GoRequest where
  method : String
  url : String
  header : Header
  body : String
deriving DecidableEq

/-- The errors `BuildRequest` can surface: its own missing-fields error,
or an error from `http.NewRequest` (invalid method / URL parse failure). -/
inductive BuildError where
  | missingRequiredFields
  | invalidMethod (m : String)
  | urlError (msg : String)
deriving DecidableEq

/-- Models `net/http.NewRequest` as exercised by `BuildRequest`: default
an empty method to GET, validate the method, parse the URL, and produce a
request with an empty header map and the given body bytes. -/
def newRequest (method rawURL body : String) : Except BuildError GoRequest :=
  let method := if method = "" then "GET" else method
  if ¬ validMethod method then Except.error (BuildError.invalidMethod method)
  else
    match urlParse rawURL with
    | Except.error e => Except.error (BuildError.urlError e)
    | Except.ok _ => Except.ok { method := method, url := rawURL, header := [], body := body }

/-- The flag values `BuildRequest` reads (`cmd.Flags().Get...`).  A flag
that is absent or unset reads as its zero value, which is how cobra's
getters behave, so zero values model absence.  `form` is the
string-to-string map of the `form` flag together with the iteration order
Go's `range` over the map happens to produce — Go map iteration order is
not deterministic, so this order is an input of the model. -/
structure Options where
  request : String := ""
  url : String := ""
  get : Bool := false
  head : Bool := false
  data : String := ""
  dataBinary : String := ""
  dataRaw : String := ""
  dataUrlencode : String := ""
  form : List (String × String) := []
  json : String := ""
  compressed : Bool := false
  range : String := ""
  userAgent : String := ""
  user : String := ""
  oauth2Bearer : String := ""
  referer : String := ""
  header : List String := []
  cookie : List String := []
deriving DecidableEq

/-- Lines 14 and 20–28 of `request.go`: explicit `--request` value, else
GET when the force-GET flag is set, else HEAD when `--head` is set, else
empty (unresolved). -/
def resolveMethod (opts : Options) : String :=
  let method := opts.request
  let method := if opts.get ∧ method = "" then "GET" else method
  if method = "" ∧ opts.head then "HEAD" else method

/-- Lines 15–18 of `request.go`: the `--url` value, or the first
positional argument when that value is empty. -/
def resolveRawURL (opts : Options) (args : List String) : String :=
  if opts.url = "" ∧ args.length > 0 then args.headD "" else opts.url

/-- Lines 146–151 of `request.go` (`encodeData`): when the value contains
`=`, keep everything up to and including the first `=` and query-escape
the remainder; otherwise query-escape the whole value. -/
def encodeData (s : String) : String :=
  match indexOfChar '=' s.data with
  | some idx => String.mk (s.data.take (idx + 1)) ++ queryEscape (String.mk (s.data.drop (idx + 1)))
  | none => queryEscape s

/-- Lines 34–64 of `request.go`: the body and the synthetic headers it
brings, chosen by the first non-empty source in fixed order: data,
data-binary, data-raw, data-urlencode, form (non-empty map), json. -/
def resolveBody (opts : Options) : String × List String :=
  if opts.data ≠ "" then (opts.data, [])
  else if opts.dataBinary ≠ "" then (opts.dataBinary, [])
  else if opts.dataRaw ≠ "" then (opts.dataRaw, [])
  else if opts.dataUrlencode ≠ "" then (encodeData opts.dataUrlencode, [])
  else if opts.form.length > 0 then
    (joinSep "&" (opts.form.map fun kv => kv.1 ++ "=" ++ kv.2),
     ["Content-Type: application/x-www-form-urlencoded"])
  else if opts.json ≠ "" then
    (opts.json, ["Content-Type: application/json", "Accept: application/json"])
  else ("", [])

/-- Lines 100–105 of `request.go`: `req.SetBasicAuth` on the `user:pass`
split of the `--user` value, skipped when there is no colon.
`Request.SetBasicAuth` sets `Authorization: Basic <base64>`. -/
def applyBasicAuth (h : Header) (userArg : String) : Header :=
  match splitN2 userArg ':' with
  | (u, some p) => headerSet h "Authorization" ("Basic " ++ basicAuth (trimSpace u) (trimSpace p))
  | (_, none) => h

/-- Lines 116–124 of `request.go`, one entry: skip empty strings, split on
the first colon, skip colon-less entries, trim name and value, `Add`. -/
def addHeaderEntry (h : Header) (entry : String) : Header :=
  if entry = "" then h
  else
    match splitN2 entry ':' with
    | (n, some v) => headerAdd h (trimSpace n) (trimSpace v)
    | (_, none) => h

/-- Models `net/http.Request.AddCookie`: append `name=value` to the
`Cookie` header, `"; "`-separated (Go's sanitization of invalid cookie
octets is not modelled; no claim uses such octets). -/
def addCookieHeader (h : Header) (name value : String) : Header :=
  let s := name ++ "=" ++ value
  let c := headerGet h "Cookie"
  if c ≠ "" then headerSet h "Cookie" (c ++ "; " ++ s) else headerSet h "Cookie" s

/-- Lines 128–140 of `request.go`, one `;`-separated pair of one cookie
flag value: trim, skip empties, split on the first `=`, skip pairs
without `=`, add the cookie with trimmed name and value. -/
def addCookiePair (h : Header) (pair : String) : Header :=
  let pair := trimSpace pair
  if pair = "" then h
  else
    match splitN2 pair '=' with
    | (n, some v) => addCookieHeader h (trimSpace n) (trimSpace v)
    | (_, none) => h

/-- Lines 126–141 of `request.go`, one cookie flag value. -/
def addCookieEntry (h : Header) (cookieStr : String) : Header :=
  (splitChar cookieStr ';').foldl addCookiePair h

/-- Lines 88–141 of `request.go`: every mutation those lines perform on
the request goes through its header map, so they are modelled as one
header transformation — compressed/range/user-agent/basic-auth/bearer/
referer sets, then the synthetic-plus-explicit header entries, then the
cookies. -/
def applyHeaders (opts : Options) (extraHeaders : List String) (h0 : Header) : Header :=
  let h := h0
  let h := if opts.compressed then headerSet h "Accept-Encoding" "gzip, deflate, br" else h
  let h := if opts.range ≠ "" then headerSet h "Range" ("bytes=" ++ opts.range) else h
  let h := if opts.userAgent ≠ "" then headerSet h "User-Agent" opts.userAgent else h
  let h := if opts.user ≠ "" then applyBasicAuth h opts.user else h
  let h := if opts.oauth2Bearer ≠ "" then headerSet h "Authorization" ("Bearer " ++ opts.oauth2Bearer) else h
  let h := if opts.referer ≠ "" then headerSet h "Referer" opts.referer else h
  let h := (extraHeaders ++ opts.header).foldl addHeaderEntry h
  opts.cookie.foldl addCookieEntry h

/-- Propagates a `newRequest` failure (lines 84–86 of `request.go`) or
applies the header pipeline to a fresh request (lines 88–141). -/
def finishRequest (hdrs : List String → Header → Header) (eh : List String) :
    Except BuildError GoRequest → Except BuildError GoRequest
  | Except.error e => Except.error e
  | Except.ok req => Except.ok { req with header := hdrs eh req.header }

/-- Lines 30–86 of `request.go` after method/URL/body resolution: fail on
a missing method or URL; fold a non-empty body into the URL when the
force-GET flag is set (`?` or `&` separator, body and synthetic headers
discarded); build the request; then apply the header pipeline. -/
def buildRequestCore (method rawURL : String) (forceGet : Bool) (bh : String × List String)
    (hdrs : List String → Header → Header) : Except BuildError GoRequest :=
  if method = "" ∨ rawURL = "" then Except.error BuildError.missingRequiredFields
  else
    let fold :=
      if forceGet ∧ bh.1 ≠ "" then
        (rawURL ++ (if rawURL.data.contains '?' then "&" else "?") ++ bh.1, ("", ([] : List String)))
      else (rawURL, (bh.1, bh.2))
    finishRequest hdrs fold.2.2 (newRequest (toUpperAscii method) fold.1 fold.2.1)

/-- `BuildRequest` of `request.go` (lines 13–144). -/
def BuildRequest (opts : Options) (args : List String) : Except BuildError GoRequest :=
  buildRequestCore (resolveMethod opts) (resolveRawURL opts args) opts.get
    (resolveBody opts) (applyHeaders opts)

/-- The flag values `BuildClient` reads; `float64` flags are embedded as
exact rationals (every float64 is a rational), `--max-redirs` is an `Int`. -/
structure ClientOptions where
  insecure : Bool := false
  connectTimeout : ℚ := 0
  proxy : String := ""
  maxTime : ℚ := 0
  location : Bool := false
  maxRedirs : Int := 0
deriving DecidableEq

/-- Models Go's `time.Duration(f * float64(time.Second))`: the seconds
value times 10^9 (exact on rationals), truncated toward zero as Go's
float-to-integer conversion does.  Computed from the reduced fraction as
`(q.num * 10^9) tdiv q.den`, which equals the toward-zero truncation of
`q * 10^9` because `q.den > 0`. -/
def durationOfSeconds (q : ℚ) : Int :=
  Int.tdiv (q.num * 1000000000) (q.den : Int)

/-- What `BuildClient` installs as the client's `CheckRedirect` hook:
nothing (`nil`, the transport's own redirect handling applies), the
constant `ErrUseLastResponse` hook, or the capped hook comparing
`len(via)` against `--max-redirs`. -/
inductive CheckRedirect where
  | notSet
  | stopAlways
  | stopAfter (maxRedirs : Int)
deriving DecidableEq

/-- Whether a redirect attempt is followed or answered with the last
response. -/
inductive RedirectDecision where
  | follow
  | useLastResponse
deriving DecidableEq

/-- Evaluates the installed hook on a redirect attempt with `n` prior
hops (Go's `len(via)`); an absent hook means the client follows (subject
only to transport defaults). -/
def checkRedirectEval : CheckRedirect → Nat → RedirectDecision
  | CheckRedirect.notSet, _ => RedirectDecision.follow
  | CheckRedirect.stopAlways, _ => RedirectDecision.useLastResponse
  | CheckRedirect.stopAfter m, n =>
      if (n : Int) ≥ m then RedirectDecision.useLastResponse else RedirectDecision.follow

/-- The transport part of the client configuration (`http.Transport`). -/
structure GoTransport where
  insecureSkipVerify : Bool
  dialTimeout : Option Int
  proxy : Option GoURL
deriving DecidableEq

/-- The client configuration produced by `BuildClient` (`http.Client`);
`timeout` is in nanoseconds, `0` meaning no overall timeout. -/
structure GoClient where
  transport : GoTransport
  timeout : Int
  checkRedirect : CheckRedirect
deriving DecidableEq

/-- The infallible part of `BuildClient` (lines 17–26 and 36–57 of
`client.go`): TLS skip-verify flag, optional dial timeout, overall
timeout, and the redirect hook, assembled around the already validated
proxy value. -/
def clientFrom (opts : ClientOptions) (proxyURL : Option GoURL) : GoClient :=
  { transport :=
      { insecureSkipVerify := opts.insecure
        dialTimeout :=
          if opts.connectTimeout > 0 then some (durationOfSeconds opts.connectTimeout) else none
        proxy := proxyURL }
    timeout := if opts.maxTime > 0 then durationOfSeconds opts.maxTime else 0
    checkRedirect :=
      if ¬ opts.location then CheckRedirect.stopAlways
      else if opts.maxRedirs > 0 then CheckRedirect.stopAfter opts.maxRedirs
      else CheckRedirect.notSet }

/-- `BuildClient` of `client.go` (lines 16–60): the only fallible step is
parsing a non-empty proxy URL (lines 28–34), whose error is returned as
is. -/
def BuildClient (opts : ClientOptions) : Except String GoClient :=
  if opts.proxy ≠ "" then
    match urlParse opts.proxy with
    | Except.error e => Except.error e
    | Except.ok u => Except.ok (clientFrom opts (some u))
  else Except.ok (clientFrom opts none)

/-- Decidable equality of `Except` values, for evaluating the builders on
concrete inputs. -/
instance {ε α : Type} [DecidableEq ε] [DecidableEq α] : DecidableEq (Except ε α)
  | Except.ok a, Except.ok b =>
      if h : a = b then Decidable.isTrue (by rw [h]) else
        Decidable.isFalse (by intro hc; injection hc; contradiction)
  | Except.ok _, Except.error _ => Decidable.isFalse (by intro hc; injection hc)
  | Except.error _, Except.ok _ => Decidable.isFalse (by intro hc; injection hc)
  | Except.error e, Except.error f =>
      if h : e = f then Decidable.isTrue (by rw [h]) else
        Decidable.isFalse (by intro hc; injection hc; contradiction)

/-- Uppercasing does not turn a non-empty string empty. -/
theorem toUpperAscii_ne_empty {s : String} (h : s ≠ "") : toUpperAscii s ≠ "" := by
  cases s with
  | mk l =>
    cases l with
    | nil => exact absurd rfl h
    | cons c cs =>
      intro hc
      exact absurd (congrArg String.data hc) (by simp [toUpperAscii])

/-- Inversion for `buildRequestCore`: a successfully built request has the
uppercased method, the (possibly query-folded) URL, the (possibly
discarded) body, and the header pipeline applied to the synthetic headers
(discarded under force-GET folding). -/
theorem buildRequestCore_ok {m u : String} {g : Bool} {bh : String × List String}
    {hf : List String → Header → Header} {req : GoRequest}
    (hok : buildRequestCore m u g bh hf = Except.ok req) :
    m ≠ "" ∧ u ≠ "" ∧
    req.method = toUpperAscii m ∧
    req.url = (if g ∧ bh.1 ≠ "" then u ++ (if u.data.contains '?' then "&" else "?") ++ bh.1 else u) ∧
    req.body = (if g ∧ bh.1 ≠ "" then "" else bh.1) ∧
    req.header = hf (if g ∧ bh.1 ≠ "" then [] else bh.2) [] := by
  unfold buildRequestCore at hok
  by_cases hmr : m = "" ∨ u = ""
  · rw [if_pos hmr] at hok
    exact Except.noConfusion hok
  · rw [if_neg hmr] at hok
    push_neg at hmr
    obtain ⟨hm, hu⟩ := hmr
    refine ⟨hm, hu, ?_⟩
    by_cases hfold : (g : Prop) ∧ bh.1 ≠ ""
    · rw [if_pos hfold] at hok
      simp only [newRequest] at hok
      rw [if_neg (toUpperAscii_ne_empty hm)] at hok
      by_cases hvm : validMethod (toUpperAscii m) = true
      · rw [if_neg (by simp [hvm])] at hok
        cases hurl : urlParse (u ++ (if u.data.contains '?' then "&" else "?") ++ bh.1) with
        | error e =>
          rw [hurl] at hok
          simp [finishRequest] at hok
        | ok uu =>
          rw [hurl] at hok
          simp only [finishRequest] at hok
          rw [Except.ok.injEq] at hok
          subst hok
          simp [if_pos hfold]
      · rw [if_pos (by simp [hvm])] at hok
        simp [finishRequest] at hok
    · rw [if_neg hfold] at hok
      simp only [newRequest] at hok
      rw [if_neg (toUpperAscii_ne_empty hm)] at hok
      by_cases hvm : validMethod (toUpperAscii m) = true
      · rw [if_neg (by simp [hvm])] at hok
        cases hurl : urlParse u with
        | error e =>
          rw [hurl] at hok
          simp [finishRequest] at hok
        | ok uu =>
          rw [hurl] at hok
          simp only [finishRequest] at hok
          rw [Except.ok.injEq] at hok
          subst hok
          simp [if_neg hfold]
      · rw [if_pos (by simp [hvm])] at hok
        simp [finishRequest] at hok

/-- Inversion for `BuildRequest`, phrased through the three resolution
stages of `request.go`. -/
theorem buildRequest_ok {opts : Options} {args : List String} {req : GoRequest}
    (hok : BuildRequest opts args = Except.ok req) :
    resolveMethod opts ≠ "" ∧ resolveRawURL opts args ≠ "" ∧
    req.method = toUpperAscii (resolveMethod opts) ∧
    req.url = (if opts.get ∧ (resolveBody opts).1 ≠ "" then
        resolveRawURL opts args ++
          (if (resolveRawURL opts args).data.contains '?' then "&" else "?") ++ (resolveBody opts).1
      else resolveRawURL opts args) ∧
    req.body = (if opts.get ∧ (resolveBody opts).1 ≠ "" then "" else (resolveBody opts).1) ∧
    req.header = applyHeaders opts (if opts.get ∧ (resolveBody opts).1 ≠ "" then [] else (resolveBody opts).2) [] :=
  buildRequestCore_ok hok

/-- Body resolution when the literal data option is non-empty. -/
theorem resolveBody_data {opts : Options} (h : opts.data ≠ "") :
    resolveBody opts = (opts.data, []) := by
  unfold resolveBody
  rw [if_pos h]

/-- Body resolution when data is empty and data-binary is non-empty. -/
theorem resolveBody_dataBinary {opts : Options} (h1 : opts.data = "") (h2 : opts.dataBinary ≠ "") :
    resolveBody opts = (opts.dataBinary, []) := by
  unfold resolveBody
  rw [if_neg (by simp [h1]), if_pos h2]

/-- Body resolution when data and data-binary are empty and data-raw is
non-empty. -/
theorem resolveBody_dataRaw {opts : Options} (h1 : opts.data = "") (h2 : opts.dataBinary = "")
    (h3 : opts.dataRaw ≠ "") : resolveBody opts = (opts.dataRaw, []) := by
  unfold resolveBody
  rw [if_neg (by simp [h1]), if_neg (by simp [h2]), if_pos h3]

/-- Body resolution when the first three sources are empty and
data-urlencode is non-empty. -/
theorem resolveBody_dataUrlencode {opts : Options} (h1 : opts.data = "") (h2 : opts.dataBinary = "")
    (h3 : opts.dataRaw = "") (h4 : opts.dataUrlencode ≠ "") :
    resolveBody opts = (encodeData opts.dataUrlencode, []) := by
  unfold resolveBody
  rw [if_neg (by simp [h1]), if_neg (by simp [h2]), if_neg (by simp [h3]), if_pos h4]

/-- Body resolution when the four data sources are empty and the form
mapping is non-empty. -/
theorem resolveBody_form {opts : Options} (h1 : opts.data = "") (h2 : opts.dataBinary = "")
    (h3 : opts.dataRaw = "") (h4 : opts.dataUrlencode = "") (h5 : opts.form ≠ []) :
    resolveBody opts = (joinSep "&" (opts.form.map fun kv => kv.1 ++ "=" ++ kv.2),
      ["Content-Type: application/x-www-form-urlencoded"]) := by
  unfold resolveBody
  rw [if_neg (by simp [h1]), if_neg (by simp [h2]), if_neg (by simp [h3]), if_neg (by simp [h4]),
    if_pos (List.length_pos.mpr h5)]

/-- Body resolution when everything above json is empty and json is
non-empty. -/
theorem resolveBody_json {opts : Options} (h1 : opts.data = "") (h2 : opts.dataBinary = "")
    (h3 : opts.dataRaw = "") (h4 : opts.dataUrlencode = "") (h5 : opts.form = [])
    (h6 : opts.json ≠ "") :
    resolveBody opts = (opts.json, ["Content-Type: application/json", "Accept: application/json"]) := by
  unfold resolveBody
  rw [if_neg (by simp [h1]), if_neg (by simp [h2]), if_neg (by simp [h3]), if_neg (by simp [h4]),
    if_neg (by simp [h5]), if_pos h6]

/-- Body resolution when no source matches. -/
theorem resolveBody_none {opts : Options} (h1 : opts.data = "") (h2 : opts.dataBinary = "")
    (h3 : opts.dataRaw = "") (h4 : opts.dataUrlencode = "") (h5 : opts.form = [])
    (h6 : opts.json = "") : resolveBody opts = ("", []) := by
  unfold resolveBody
  rw [if_neg (by simp [h1]), if_neg (by simp [h2]), if_neg (by simp [h3]), if_neg (by simp [h4]),
    if_neg (by simp [h5]), if_neg (by simp [h6])]

/-- Clears every body source below literal data (used to state that they
are ignored when data wins). -/
def clearBelowData (opts : Options) : Options :=
  { opts with
      dataBinary := ""
      dataRaw := ""
      dataUrlencode := ""
      form := []
      json := "" }

/-- Clears every body source below data-binary. -/
def clearBelowDataBinary (opts : Options) : Options :=
  { opts with
      dataRaw := ""
      dataUrlencode := ""
      form := []
      json := "" }

/-- Clears every body source below data-raw. -/
def clearBelowDataRaw (opts : Options) : Options :=
  { opts with
      dataUrlencode := ""
      form := []
      json := "" }

/-- Clears every body source below data-urlencode. -/
def clearBelowDataUrlencode (opts : Options) : Options :=
  { opts with
      form := []
      json := "" }

/-- Clears the body source below form. -/
def clearBelowForm (opts : Options) : Options :=
  { opts with json := "" }

/-- Clears all six body sources (used to state that force-GET folding
discards the synthetic body headers). -/
def clearBodySources (opts : Options) : Options :=
  { opts with
      data := ""
      dataBinary := ""
      dataRaw := ""
      dataUrlencode := ""
      form := []
      json := "" }

/-- C1: the six body sources are consulted in the fixed order data,
data-binary, data-raw, data-urlencode, form, json; the first non-empty one
alone determines the outcome — clearing every lower-precedence source
(including the synthetic headers form/json would add) leaves the built
request unchanged — and when literal data is the winner the body is its
verbatim value. -/
theorem bodySourcePrecedence (opts : Options) (args : List String) :
    (opts.data ≠ "" → BuildRequest opts args = BuildRequest (clearBelowData opts) args) ∧
    (opts.data = "" → opts.dataBinary ≠ "" →
      BuildRequest opts args = BuildRequest (clearBelowDataBinary opts) args) ∧
    (opts.data = "" → opts.dataBinary = "" → opts.dataRaw ≠ "" →
      BuildRequest opts args = BuildRequest (clearBelowDataRaw opts) args) ∧
    (opts.data = "" → opts.dataBinary = "" → opts.dataRaw = "" → opts.dataUrlencode ≠ "" →
      BuildRequest opts args = BuildRequest (clearBelowDataUrlencode opts) args) ∧
    (opts.data = "" → opts.dataBinary = "" → opts.dataRaw = "" → opts.dataUrlencode = "" →
        opts.form ≠ [] →
      BuildRequest opts args = BuildRequest (clearBelowForm opts) args) ∧
    (∀ req, opts.get = false → BuildRequest opts args = Except.ok req → opts.data ≠ "" →
      req.body = opts.data) := by
  refine ⟨?_, ?_, ?_, ?_, ?_, ?_⟩
  · intro h
    unfold BuildRequest
    rw [resolveBody_data h, resolveBody_data (show (clearBelowData opts).data ≠ "" from h)]
    rfl
  · intro h1 h2
    unfold BuildRequest
    rw [resolveBody_dataBinary h1 h2,
      resolveBody_dataBinary (show (clearBelowDataBinary opts).data = "" from h1) h2]
    rfl
  · intro h1 h2 h3
    unfold BuildRequest
    rw [resolveBody_dataRaw h1 h2 h3,
      resolveBody_dataRaw (show (clearBelowDataRaw opts).data = "" from h1) h2 h3]
    rfl
  · intro h1 h2 h3 h4
    unfold BuildRequest
    rw [resolveBody_dataUrlencode h1 h2 h3 h4,
      resolveBody_dataUrlencode (show (clearBelowDataUrlencode opts).data = "" from h1) h2 h3 h4]
    rfl
  · intro h1 h2 h3 h4 h5
    unfold BuildRequest
    rw [resolveBody_form h1 h2 h3 h4 h5,
      resolveBody_form (show (clearBelowForm opts).data = "" from h1) h2 h3 h4 h5]
    rfl
  · intro req hget hok h
    obtain ⟨-, -, -, -, hbody, -⟩ := buildRequest_ok hok
    rw [hbody, if_neg (by simp [hget]), resolveBody_data h]

/-- An option snapshot with all six body sources set at once. -/
def precedenceOpts : Options :=
  { request := "POST"
    url := "http://example.com"
    data := "A"
    dataBinary := "B"
    dataRaw := "C"
    dataUrlencode := "D"
    form := [("k", "v")]
    json := "J" }

/-- The request `precedenceOpts` builds. -/
def precedenceReq : GoRequest :=
  { method := "POST", url := "http://example.com", header := [], body := "A" }

/-- Witness for C1: with all six body sources set, clearing everything but
the literal data leaves the request unchanged, and the body is the literal
data value. -/
theorem bodySourcePrecedenceWitness :
    (BuildRequest precedenceOpts [] = BuildRequest (clearBelowData precedenceOpts) []) ∧
    BuildRequest precedenceOpts [] = Except.ok precedenceReq ∧ precedenceReq.body = "A" :=
  ⟨(bodySourcePrecedence precedenceOpts []).1 (by decide), by decide,
    (bodySourcePrecedence precedenceOpts []).2.2.2.2.2 precedenceReq (by decide) (by decide)
      (by decide)⟩

/-- C2: when the force-GET flag is set and the resolved body is non-empty,
the built request has an empty body, its URL is the resolved URL with the
raw body string appended after `?` (no `?` in the URL) or `&` (otherwise),
and its headers are exactly those of the same option set with every body
source cleared — the synthetic form/json headers are discarded. -/
theorem forceGetFoldsBodyIntoURL (opts : Options) (args : List String) (req : GoRequest)
    (hget : opts.get = true) (hbody : (resolveBody opts).1 ≠ "")
    (hok : BuildRequest opts args = Except.ok req) :
    req.body = "" ∧
    req.url = resolveRawURL opts args ++
      (if (resolveRawURL opts args).data.contains '?' then "&" else "?") ++ (resolveBody opts).1 ∧
    ∀ req2, BuildRequest (clearBodySources opts) args = Except.ok req2 →
      req.header = req2.header := by
  obtain ⟨-, -, -, hurl, hbody', hhdr⟩ := buildRequest_ok hok
  have hc : (opts.get : Prop) ∧ (resolveBody opts).1 ≠ "" := ⟨hget, hbody⟩
  refine ⟨by rw [hbody', if_pos hc], by rw [hurl, if_pos hc], ?_⟩
  intro req2 hok2
  obtain ⟨-, -, -, -, -, hhdr2⟩ := buildRequest_ok hok2
  rw [hhdr, if_pos hc, hhdr2,
    resolveBody_none (show (clearBodySources opts).data = "" from rfl) rfl rfl rfl rfl rfl,
    if_neg (by simp)]
  rfl

/-- Force-GET options: body from literal data, URL without a query. -/
def forceGetOpts : Options :=
  { get := true, url := "http://x.com", data := "key=value" }

/-- The request `forceGetOpts` builds. -/
def forceGetReq : GoRequest :=
  { method := "GET", url := "http://x.com?key=value", header := [], body := "" }

/-- Force-GET options with an existing query component in the URL. -/
def forceGetQueryOpts : Options :=
  { get := true, url := "http://x.com?existing=1", data := "key=value" }

/-- Witness for C2: `get=true`, `url=http://x.com`, `data=key=value` gives
URL `http://x.com?key=value` with an empty body, and with an existing
query component the body is appended after `&`. -/
theorem forceGetFoldsBodyIntoURLWitness :
    (BuildRequest forceGetOpts [] = Except.ok forceGetReq ∧
      forceGetReq.body = "" ∧ forceGetReq.url = "http://x.com?key=value") ∧
    (BuildRequest forceGetQueryOpts []).toOption.map GoRequest.url =
      some "http://x.com?existing=1&key=value" :=
  ⟨⟨by decide,
    (forceGetFoldsBodyIntoURL forceGetOpts [] forceGetReq rfl (by decide) (by decide)).1,
    by decide⟩, by decide⟩

/-- The method stays unresolved exactly when the explicit method option is
empty and both the force-GET and head flags are off. -/
theorem resolveMethod_eq_empty_iff (opts : Options) :
    resolveMethod opts = "" ↔ opts.request = "" ∧ opts.get = false ∧ opts.head = false := by
  cases hget : opts.get <;> cases hhead : opts.head <;> by_cases hr : opts.request = "" <;>
    simp [resolveMethod, hget, hhead, hr]

/-- The URL stays unresolved exactly when the URL option is empty and the
first positional argument (taken as `""` when there is none) is empty. -/
theorem resolveRawURL_eq_empty_iff (opts : Options) (args : List String) :
    resolveRawURL opts args = "" ↔ opts.url = "" ∧ args.headD "" = "" := by
  unfold resolveRawURL
  by_cases hu : opts.url = ""
  · cases args with
    | nil => simp [hu]
    | cons a rest => simp [hu]
  · simp [hu]

/-- `newRequest` never reports the builder's own missing-fields error. -/
theorem newRequest_ne_missing (m u b : String) :
    newRequest m u b ≠ Except.error BuildError.missingRequiredFields := by
  unfold newRequest
  by_cases hv : validMethod (if m = "" then "GET" else m) = true
  · rw [if_neg (by simp [hv])]
    cases hurl : urlParse u <;> simp
  · rw [if_pos (by simp [hv])]
    simp

/-- `finishRequest` fails exactly when the underlying request
construction failed, with the same error. -/
theorem finishRequest_error_iff {hf : List String → Header → Header} {eh : List String}
    {r : Except BuildError GoRequest} {e : BuildError} :
    finishRequest hf eh r = Except.error e ↔ r = Except.error e := by
  cases r <;> simp [finishRequest]

/-- `buildRequestCore` reports the missing-fields error exactly when the
method or the URL is empty. -/
theorem buildRequestCore_missing_iff (m u : String) (g : Bool) (bh : String × List String)
    (hf : List String → Header → Header) :
    buildRequestCore m u g bh hf = Except.error BuildError.missingRequiredFields ↔
      m = "" ∨ u = "" := by
  constructor
  · intro hc
    by_contra hmr
    unfold buildRequestCore at hc
    rw [if_neg hmr] at hc
    rw [finishRequest_error_iff] at hc
    exact newRequest_ne_missing _ _ _ hc
  · intro h
    unfold buildRequestCore
    rw [if_pos h]

/-- C4 (amended): `BuildRequest` fails with the missing-fields error
exactly when the method stays unresolved (no explicit method, force-GET
off, head off) or the URL stays unresolved (URL option empty and the first
positional argument, if any, empty); the `Except` error carries no request
descriptor. -/
theorem missingRequiredFieldsIff (opts : Options) (args : List String) :
    BuildRequest opts args = Except.error BuildError.missingRequiredFields ↔
      (opts.request = "" ∧ opts.get = false ∧ opts.head = false) ∨
      (opts.url = "" ∧ args.headD "" = "") := by
  unfold BuildRequest
  rw [buildRequestCore_missing_iff, resolveMethod_eq_empty_iff, resolveRawURL_eq_empty_iff]

/-- Options with an explicit method, no URL option. -/
def positionalOpts : Options := { request := "POST" }

/-- Counterexample to C4 as stated: with the method resolved, the URL
option empty, and an empty string as the (present) first positional
argument, `BuildRequest` fails with the missing-fields error even though a
positional argument was supplied — the claim's condition "URL option
empty and no positional argument" does not hold. -/
theorem missingFieldsClaimCounterexample :
    BuildRequest positionalOpts [""] = Except.error BuildError.missingRequiredFields ∧
    ¬ ((positionalOpts.request = "" ∧ positionalOpts.get = false ∧ positionalOpts.head = false) ∨
       (positionalOpts.url = "" ∧ ([""] : List String) = [])) :=
  ⟨by decide, by decide⟩

/-- `indexOfChar` misses characters that are not in the list. -/
theorem indexOfChar_eq_none {c : Char} {l : List Char} (h : c ∉ l) : indexOfChar c l = none := by
  induction l with
  | nil => rfl
  | cons a rest ih =>
    rw [List.mem_cons, not_or] at h
    unfold indexOfChar
    rw [if_neg (by simp only [beq_iff_eq]; exact fun hc => h.1 hc.symm), ih h.2]
    rfl

/-- `indexOfChar` finds the first occurrence after a clean prefix. -/
theorem indexOfChar_append {c : Char} {pre post : List Char} (h : c ∉ pre) :
    indexOfChar c (pre ++ c :: post) = some pre.length := by
  induction pre with
  | nil =>
    rw [List.nil_append]
    unfold indexOfChar
    rw [if_pos (by simp)]
    rfl
  | cons a rest ih =>
    rw [List.mem_cons, not_or] at h
    rw [List.cons_append]
    unfold indexOfChar
    rw [if_neg (by simp only [beq_iff_eq]; exact fun hc => h.1 hc.symm), ih h.2]
    rfl

/-- A string is its character list. -/
theorem strMkData (s : String) : String.mk s.data = s := rfl

/-- `encodeData` on a value without `=` escapes the whole value. -/
theorem encodeData_no_eq {s : String} (h : ('=' : Char) ∉ s.data) :
    encodeData s = queryEscape s := by
  unfold encodeData
  rw [indexOfChar_eq_none h]

/-- `encodeData` on a value whose first `=` splits it as `pre ++ "=" ++
post` keeps `pre ++ "="` verbatim and escapes only `post`. -/
theorem encodeData_split (pre post : String) (h : ('=' : Char) ∉ pre.data) :
    encodeData (pre ++ "=" ++ post) = pre ++ "=" ++ queryEscape post := by
  unfold encodeData
  have hdata : (pre ++ "=" ++ post).data = pre.data ++ '=' :: post.data := by
    simp [String.data_append]
  rw [hdata, indexOfChar_append h]
  simp only [List.take_append, List.drop_append, List.take_succ_cons, List.take_zero,
    List.drop_succ_cons, List.drop_zero, strMkData]
  congr 1

/-- C5: when the data-urlencode option is the selected body source (the
three higher-precedence sources empty, force-GET off), the body keeps
everything up to and including the first `=` verbatim and percent-encodes
the remainder; without `=` the whole value is percent-encoded; and a space
percent-encodes to `+` (`hello world` ↦ `hello+world`). -/
theorem dataUrlencodeBodySpec (opts : Options) (args : List String) (req : GoRequest)
    (h1 : opts.data = "") (h2 : opts.dataBinary = "") (h3 : opts.dataRaw = "")
    (h4 : opts.dataUrlencode ≠ "") (hget : opts.get = false)
    (hok : BuildRequest opts args = Except.ok req) :
    ((('=' : Char) ∉ opts.dataUrlencode.data → req.body = queryEscape opts.dataUrlencode) ∧
     (∀ pre post : String, opts.dataUrlencode = pre ++ "=" ++ post → ('=' : Char) ∉ pre.data →
        req.body = pre ++ "=" ++ queryEscape post)) ∧
    queryEscape "hello world" = "hello+world" := by
  obtain ⟨-, -, -, -, hbody, -⟩ := buildRequest_ok hok
  have hb : req.body = encodeData opts.dataUrlencode := by
    rw [hbody, if_neg (by simp [hget]), resolveBody_dataUrlencode h1 h2 h3 h4]
  refine ⟨⟨?_, ?_⟩, by decide⟩
  · intro h
    rw [hb, encodeData_no_eq h]
  · intro pre post hpp h
    rw [hb, hpp, encodeData_split pre post h]

/-- Options selecting the data-urlencode source with value
`q=hello world`. -/
def urlencodeOpts : Options :=
  { request := "POST", url := "http://example.com", dataUrlencode := "q=hello world" }

/-- The request `urlencodeOpts` builds. -/
def urlencodeReq : GoRequest :=
  { method := "POST", url := "http://example.com", header := [], body := "q=hello+world" }

/-- Witness for C5: `data-urlencode=q=hello world` produces the body
`q=hello+world`. -/
theorem dataUrlencodeBodySpecWitness :
    BuildRequest urlencodeOpts [] = Except.ok urlencodeReq ∧
    urlencodeReq.body = "q" ++ "=" ++ queryEscape "hello world" ∧
    urlencodeReq.body = "q=hello+world" :=
  ⟨by decide,
   (dataUrlencodeBodySpec urlencodeOpts [] urlencodeReq rfl rfl rfl (by decide) rfl
     (by decide)).1.2 "q" "hello world" (by decide) (by decide),
   by decide⟩

/-- The explicit method option wins when non-empty. -/
theorem resolveMethod_request {opts : Options} (h : opts.request ≠ "") :
    resolveMethod opts = opts.request := by
  unfold resolveMethod
  rw [if_neg (by simp [h]), if_neg (by simp [h])]

/-- Without an explicit method, the force-GET flag yields GET. -/
theorem resolveMethod_get {opts : Options} (h1 : opts.request = "") (h2 : opts.get = true) :
    resolveMethod opts = "GET" := by
  simp only [resolveMethod]
  rw [if_pos (show (opts.get : Prop) ∧ opts.request = "" from ⟨h2, h1⟩)]
  rw [if_neg (fun hc => absurd hc.1 (by decide))]

/-- Without an explicit method and force-GET, the head flag yields HEAD. -/
theorem resolveMethod_head {opts : Options} (h1 : opts.request = "") (h2 : opts.get = false)
    (h3 : opts.head = true) : resolveMethod opts = "HEAD" := by
  simp only [resolveMethod]
  rw [if_neg (show ¬((opts.get : Prop) ∧ opts.request = "") from by simp [h2])]
  rw [if_pos (show opts.request = "" ∧ (opts.head : Prop) from ⟨h1, h3⟩)]

/-- C6: the request method follows the precedence explicit method
(uppercased) over force-GET over head — in particular an explicit method
beats the head flag. -/
theorem methodPrecedenceSpec (opts : Options) (args : List String) (req : GoRequest)
    (hok : BuildRequest opts args = Except.ok req) :
    (opts.request ≠ "" → req.method = toUpperAscii opts.request) ∧
    (opts.request = "" → opts.get = true → req.method = "GET") ∧
    (opts.request = "" → opts.get = false → opts.head = true → req.method = "HEAD") := by
  obtain ⟨-, -, hmeth, -⟩ := buildRequest_ok hok
  refine ⟨?_, ?_, ?_⟩
  · intro h
    rw [hmeth, resolveMethod_request h]
  · intro h1 h2
    rw [hmeth, resolveMethod_get h1 h2]
    decide
  · intro h1 h2 h3
    rw [hmeth, resolveMethod_head h1 h2 h3]
    decide

/-- Options with an explicit lowercase method and the head flag set. -/
def methodOpts : Options :=
  { request := "post", head := true, url := "http://example.com" }

/-- The request `methodOpts` builds. -/
def methodReq : GoRequest :=
  { method := "POST", url := "http://example.com", header := [], body := "" }

/-- Witness for C6: an explicit method `post` together with `head=true`
yields the uppercased explicit method POST, not HEAD. -/
theorem methodPrecedenceSpecWitness :
    BuildRequest methodOpts [] = Except.ok methodReq ∧
    methodReq.method = toUpperAscii methodOpts.request ∧ methodReq.method = "POST" :=
  ⟨by decide,
   (methodPrecedenceSpec methodOpts [] methodReq (by decide)).1 (by decide),
   by decide⟩

/-- Inversion for `BuildClient`: a successfully built client is
`clientFrom` at some proxy value. -/
theorem buildClient_ok {opts : ClientOptions} {client : GoClient}
    (hok : BuildClient opts = Except.ok client) : ∃ p, client = clientFrom opts p := by
  unfold BuildClient at hok
  by_cases hp : opts.proxy ≠ ""
  · rw [if_pos hp] at hok
    cases hurl : urlParse opts.proxy with
    | error e =>
      rw [hurl] at hok
      exact Except.noConfusion hok
    | ok u =>
      rw [hurl] at hok
      injection hok with h
      exact ⟨some u, h.symm⟩
  · rw [if_neg hp] at hok
    injection hok with h
    exact ⟨none, h.symm⟩

/-- C3: with the location flag off the installed redirect check answers
"use last response" for every redirect attempt; with it on and a positive
max-redirs N the check follows while the prior-hop count is below N and
stops from N on; with it on and a non-positive max-redirs no redirect
check is installed at all. -/
theorem redirectPolicySpec (opts : ClientOptions) (client : GoClient)
    (hok : BuildClient opts = Except.ok client) :
    (opts.location = false → ∀ n : Nat,
        checkRedirectEval client.checkRedirect n = RedirectDecision.useLastResponse) ∧
    (opts.location = true → 0 < opts.maxRedirs → ∀ n : Nat,
        ((n : Int) < opts.maxRedirs →
          checkRedirectEval client.checkRedirect n = RedirectDecision.follow) ∧
        (opts.maxRedirs ≤ (n : Int) →
          checkRedirectEval client.checkRedirect n = RedirectDecision.useLastResponse)) ∧
    (opts.location = true → opts.maxRedirs ≤ 0 →
      client.checkRedirect = CheckRedirect.notSet) := by
  obtain ⟨p, hcl⟩ := buildClient_ok hok
  subst hcl
  refine ⟨?_, ?_, ?_⟩
  · intro hloc n
    simp [clientFrom, hloc, checkRedirectEval]
  · intro hloc hmr n
    have hcr : (clientFrom opts p).checkRedirect = CheckRedirect.stopAfter opts.maxRedirs := by
      simp [clientFrom, hloc, hmr]
    constructor
    · intro hn
      rw [hcr]
      simp only [checkRedirectEval]
      rw [if_neg (not_le.mpr hn)]
    · intro hn
      rw [hcr]
      simp only [checkRedirectEval]
      rw [if_pos hn]
  · intro hloc hmr
    simp [clientFrom, hloc, not_lt.mpr hmr]

/-- Options asking to follow at most 3 redirects. -/
def redirOpts : ClientOptions := { location := true, maxRedirs := 3 }

/-- The client `redirOpts` builds. -/
def redirClient : GoClient :=
  { transport := { insecureSkipVerify := false, dialTimeout := none, proxy := none }
    timeout := 0
    checkRedirect := CheckRedirect.stopAfter 3 }

/-- The client the empty option set builds. -/
def defaultClient : GoClient :=
  { transport := { insecureSkipVerify := false, dialTimeout := none, proxy := none }
    timeout := 0
    checkRedirect := CheckRedirect.stopAlways }

/-- Witness for C3: with max-redirs 3, two prior hops are followed and
three prior hops answer "use last response"; with all options defaulted
every redirect attempt answers "use last response". -/
theorem redirectPolicySpecWitness :
    (BuildClient redirOpts = Except.ok redirClient ∧
      checkRedirectEval redirClient.checkRedirect 2 = RedirectDecision.follow ∧
      checkRedirectEval redirClient.checkRedirect 3 = RedirectDecision.useLastResponse) ∧
    (BuildClient {} = Except.ok defaultClient ∧
      checkRedirectEval defaultClient.checkRedirect 0 = RedirectDecision.useLastResponse) :=
  ⟨⟨by decide,
    ((redirectPolicySpec redirOpts redirClient (by decide)).2.1 rfl (by decide) 2).1 (by decide),
    ((redirectPolicySpec redirOpts redirClient (by decide)).2.1 rfl (by decide) 3).2 (by decide)⟩,
   ⟨by decide, (redirectPolicySpec {} defaultClient (by decide)).1 rfl 0⟩⟩

/-- C7: `BuildClient` fails exactly on a non-empty proxy value that fails
URL parsing, propagating that parse error (and returning no client); with
an empty or parseable proxy it always succeeds — no other option can make
it fail. -/
theorem proxyParseOnlyError (opts : ClientOptions) :
    (∀ e, BuildClient opts = Except.error e →
      opts.proxy ≠ "" ∧ urlParse opts.proxy = Except.error e) ∧
    ((opts.proxy = "" ∨ ∃ u, urlParse opts.proxy = Except.ok u) →
      ∃ c, BuildClient opts = Except.ok c) := by
  constructor
  · intro e he
    by_cases hp : opts.proxy ≠ ""
    · refine ⟨hp, ?_⟩
      unfold BuildClient at he
      rw [if_pos hp] at he
      cases hurl : urlParse opts.proxy with
      | error e2 =>
        rw [hurl] at he
        injection he with h
        rw [h]
      | ok u =>
        rw [hurl] at he
        exact Except.noConfusion he
    · unfold BuildClient at he
      rw [if_neg hp] at he
      exact Except.noConfusion he
  · intro h
    by_cases hp : opts.proxy ≠ ""
    · rcases h with h | ⟨u, hu⟩
      · exact absurd h hp
      · exact ⟨clientFrom opts (some u), by unfold BuildClient; rw [if_pos hp, hu]⟩
    · exact ⟨clientFrom opts none, by unfold BuildClient; rw [if_neg hp]⟩

/-- Options with the unparseable proxy value of the spec's example. -/
def proxyOpts : ClientOptions := { proxy := "://invalid" }

/-- Witness for C7: `proxy=://invalid` makes `BuildClient` fail with the
scheme parse error, and an empty proxy always builds a client. -/
theorem proxyParseOnlyErrorWitness :
    (proxyOpts.proxy ≠ "" ∧ urlParse proxyOpts.proxy = Except.error "missing protocol scheme") ∧
    ∃ c, BuildClient {} = Except.ok c :=
  ⟨(proxyParseOnlyError proxyOpts).1 "missing protocol scheme" (by decide),
   (proxyParseOnlyError {}).2 (Or.inl rfl)⟩

/-- When `q·10⁹` is an integer, its truncation is exact. -/
theorem durationOfSeconds_exact {q : ℚ} (hden : (q * 1000000000).den = 1) :
    (durationOfSeconds q : ℚ) = q * 1000000000 := by
  have hint : (((q * 1000000000).num : Int) : ℚ) = q * 1000000000 :=
    (Rat.den_eq_one_iff _).mp hden
  have hd : ((q.den : ℚ)) ≠ 0 := by
    exact_mod_cast q.den_ne_zero
  have hnum : (q.num : ℚ) = q * (q.den : ℚ) := (div_eq_iff hd).mp (Rat.num_div_den q)
  have h1 : ((q.num * 1000000000 : Int) : ℚ) = (((q * 1000000000).num * (q.den : Int) : Int) : ℚ) := by
    push_cast
    rw [hnum, hint]
    ring
  have hid : q.num * 1000000000 = (q * 1000000000).num * (q.den : Int) :=
    Int.cast_injective h1
  unfold durationOfSeconds
  rw [hid, Int.mul_tdiv_cancel _ (by exact_mod_cast q.den_ne_zero)]
  exact hint

/-- C8: a positive max-time of 1.5 seconds gives a timeout of exactly
1500 ms (1 500 000 000 ns); any positive max-time whose nanosecond value
is integral is converted exactly; zero or negative max-time leaves the
timeout at zero (no overall timeout).  Float64 flag values are embedded as
the exact rationals they denote. -/
theorem maxTimeTimeoutSpec (opts : ClientOptions) (client : GoClient)
    (hok : BuildClient opts = Except.ok client) :
    (opts.maxTime = mkRat 3 2 → client.timeout = 1500000000) ∧
    (0 < opts.maxTime → (opts.maxTime * 1000000000).den = 1 →
      (client.timeout : ℚ) = opts.maxTime * 1000000000) ∧
    (opts.maxTime ≤ 0 → client.timeout = 0) := by
  obtain ⟨p, hcl⟩ := buildClient_ok hok
  subst hcl
  have ht : (clientFrom opts p).timeout =
      (if opts.maxTime > 0 then durationOfSeconds opts.maxTime else 0) := rfl
  refine ⟨?_, ?_, ?_⟩
  · intro h
    rw [ht, h]
    decide
  · intro hpos hden
    rw [ht, if_pos hpos]
    exact durationOfSeconds_exact hden
  · intro hle
    rw [ht, if_neg (not_lt.mpr hle)]

/-- Options with max-time 1.5 seconds. -/
def maxTimeOpts : ClientOptions := { maxTime := mkRat 3 2 }

/-- The client `maxTimeOpts` builds. -/
def maxTimeClient : GoClient :=
  { transport := { insecureSkipVerify := false, dialTimeout := none, proxy := none }
    timeout := 1500000000
    checkRedirect := CheckRedirect.stopAlways }

/-- Witness for C8: max-time 1.5 gives timeout 1 500 000 000 ns. -/
theorem maxTimeTimeoutSpecWitness :
    BuildClient maxTimeOpts = Except.ok maxTimeClient ∧ maxTimeClient.timeout = 1500000000 :=
  ⟨by decide, (maxTimeTimeoutSpec maxTimeOpts maxTimeClient (by decide)).1 rfl⟩

/-- Permutations of lists with at most one element are trivial. -/
theorem perm_eq_of_length_le_one {α : Type} {l l2 : List α} (h : l.Perm l2)
    (hl : l.length ≤ 1) : l = l2 := by
  cases l with
  | nil => exact h.nil_eq
  | cons a rest =>
    cases rest with
    | nil => exact List.singleton_perm.mp h
    | cons b r2 => simp at hl

/-- The body resolution ignores the form mapping whenever one of the four
higher-precedence sources is non-empty. -/
theorem resolveBody_ignores_form {opts : Options} (order2 : List (String × String))
    (h : opts.data ≠ "" ∨ opts.dataBinary ≠ "" ∨ opts.dataRaw ≠ "" ∨ opts.dataUrlencode ≠ "") :
    resolveBody { opts with form := order2 } = resolveBody opts := by
  by_cases h1 : opts.data ≠ ""
  · rw [resolveBody_data h1,
      resolveBody_data (show Options.data { opts with form := order2 } ≠ "" from h1)]
  · push_neg at h1
    by_cases h2 : opts.dataBinary ≠ ""
    · rw [resolveBody_dataBinary h1 h2,
        resolveBody_dataBinary (show Options.data { opts with form := order2 } = "" from h1) h2]
    · push_neg at h2
      by_cases h3 : opts.dataRaw ≠ ""
      · rw [resolveBody_dataRaw h1 h2 h3,
          resolveBody_dataRaw (show Options.data { opts with form := order2 } = "" from h1) h2 h3]
      · push_neg at h3
        by_cases h4 : opts.dataUrlencode ≠ ""
        · rw [resolveBody_dataUrlencode h1 h2 h3 h4,
            resolveBody_dataUrlencode
              (show Options.data { opts with form := order2 } = "" from h1) h2 h3 h4]
        · push_neg at h4
          rcases h with h | h | h | h <;> contradiction

/-- `BuildRequest` does not look at the form mapping when a
higher-precedence body source is non-empty. -/
theorem buildRequest_ignores_form_order {opts : Options} {args : List String}
    (order2 : List (String × String))
    (h : opts.data ≠ "" ∨ opts.dataBinary ≠ "" ∨ opts.dataRaw ≠ "" ∨ opts.dataUrlencode ≠ "") :
    BuildRequest { opts with form := order2 } args = BuildRequest opts args := by
  unfold BuildRequest
  rw [resolveBody_ignores_form order2 h]
  rfl

/-- C9 (amended): `BuildRequest` is a function of the option snapshot
together with the iteration order of the form mapping; two invocations
observing permuted iteration orders of the same mapping coincide when the
mapping has at most one entry or a higher-precedence body source is
non-empty (in general they need not — see the counterexample);
`BuildClient`, which consumes no unordered mapping, is deterministic
outright. -/
theorem buildersDeterministic :
    (∀ (opts : Options) (args : List String) (order2 : List (String × String)),
      opts.form.Perm order2 →
      (opts.form.length ≤ 1 ∨ opts.data ≠ "" ∨ opts.dataBinary ≠ "" ∨ opts.dataRaw ≠ "" ∨
        opts.dataUrlencode ≠ "") →
      BuildRequest opts args = BuildRequest { opts with form := order2 } args) ∧
    (∀ copts : ClientOptions, BuildClient copts = BuildClient copts) := by
  refine ⟨?_, fun _ => rfl⟩
  intro opts args order2 hperm hc
  rcases hc with hlen | h
  · rw [← perm_eq_of_length_le_one hperm hlen]
  · exact (buildRequest_ignores_form_order order2 h).symm

/-- A two-entry form map in one iteration order. -/
def formOrderA : Options :=
  { request := "POST", url := "http://example.com", form := [("a", "1"), ("b", "2")] }

/-- The same form map in the other iteration order. -/
def formOrderB : Options :=
  { request := "POST", url := "http://example.com", form := [("b", "2"), ("a", "1")] }

/-- Counterexample to C9 as stated: the two option snapshots hold the same
(unordered) form mapping, yet the two invocations produce byte-different
bodies, so the built requests differ. -/
theorem formOrderCounterexample :
    formOrderA.form.Perm formOrderB.form ∧
    formOrderB = { formOrderA with form := formOrderB.form } ∧
    BuildRequest formOrderA [] ≠ BuildRequest formOrderB [] ∧
    (BuildRequest formOrderA []).toOption.map GoRequest.body = some "a=1&b=2" ∧
    (BuildRequest formOrderB []).toOption.map GoRequest.body = some "b=2&a=1" :=
  ⟨by decide, by decide, by decide, by decide, by decide⟩

/-- Options whose form map has a single entry, in the only order. -/
def singleFormOpts : Options :=
  { request := "POST", url := "http://example.com", form := [("k", "v")] }

/-- Witness for C9 (amended): with a one-entry form mapping the permuted
invocation coincides, and `BuildClient` is deterministic. -/
theorem buildersDeterministicWitness :
    BuildRequest singleFormOpts [] = BuildRequest { singleFormOpts with form := [("k", "v")] } [] ∧
    BuildClient {} = BuildClient {} :=
  ⟨buildersDeterministic.1 singleFormOpts [] [("k", "v")] (by decide) (Or.inl (by decide)),
   buildersDeterministic.2 {}⟩

/-- Setting a key stores exactly one value under it. -/
theorem lookupVals_setAssoc_self (h : Header) (k v : String) :
    lookupVals (setAssoc h k v) k = [v] := by
  induction h with
  | nil => simp [setAssoc, lookupVals]
  | cons e rest ih =>
    by_cases he : e.1 = k
    · simp [setAssoc, lookupVals, he]
    · simp [setAssoc, lookupVals, he, ih]

/-- Setting one key leaves the values of another key unchanged. -/
theorem lookupVals_setAssoc_ne (h : Header) {k k2 : String} (v : String) (hne : k ≠ k2) :
    lookupVals (setAssoc h k v) k2 = lookupVals h k2 := by
  induction h with
  | nil => simp [setAssoc, lookupVals, hne]
  | cons e rest ih =>
    by_cases he : e.1 = k
    · simp [setAssoc, lookupVals, he, hne]
    · simp only [setAssoc, lookupVals]
      rw [if_neg (by simp [he])]
      by_cases he2 : e.1 = k2
      · simp [lookupVals, he2]
      · simp [lookupVals, he2, ih]

/-- Adding under one key leaves the values of another key unchanged. -/
theorem lookupVals_addAssoc_ne (h : Header) {k k2 : String} (v : String) (hne : k ≠ k2) :
    lookupVals (addAssoc h k v) k2 = lookupVals h k2 := by
  induction h with
  | nil => simp [addAssoc, lookupVals, hne]
  | cons e rest ih =>
    by_cases he : e.1 = k
    · simp [addAssoc, lookupVals, he, hne]
    · simp only [addAssoc]
      rw [if_neg (by simp [he])]
      by_cases he2 : e.1 = k2
      · simp [lookupVals, he2]
      · simp [lookupVals, he2, ih]

/-- `Header.Set` stores exactly one value under the set key. -/
theorem headerValues_headerSet_self (h : Header) (k v : String) :
    headerValues (headerSet h k v) k = [v] :=
  lookupVals_setAssoc_self h (canonicalMIMEHeaderKey k) v

/-- `Header.Set` on a key with a different canonical form leaves another
key's values unchanged. -/
theorem headerValues_headerSet_ne (h : Header) {k k2 : String} (v : String)
    (hne : canonicalMIMEHeaderKey k ≠ canonicalMIMEHeaderKey k2) :
    headerValues (headerSet h k v) k2 = headerValues h k2 :=
  lookupVals_setAssoc_ne h v hne

/-- `Header.Add` on a key with a different canonical form leaves another
key's values unchanged. -/
theorem headerValues_headerAdd_ne (h : Header) {k k2 : String} (v : String)
    (hne : canonicalMIMEHeaderKey k ≠ canonicalMIMEHeaderKey k2) :
    headerValues (headerAdd h k v) k2 = headerValues h k2 :=
  lookupVals_addAssoc_ne h v hne

/-- The canonical header name an explicit header-list entry targets, if
any: `none` for entries the builder skips (empty or without a colon). -/
def entryName (entry : String) : Option String :=
  if entry = "" then none
  else
    match splitN2 entry ':' with
    | (n, some _) => some (canonicalMIMEHeaderKey (trimSpace n))
    | (_, none) => none

/-- Applying one header-list entry that does not target `key` leaves the
values under `key` unchanged. -/
theorem headerValues_addHeaderEntry (h : Header) (entry key : String)
    (hne : entryName entry ≠ some (canonicalMIMEHeaderKey key)) :
    headerValues (addHeaderEntry h entry) key = headerValues h key := by
  unfold addHeaderEntry
  unfold entryName at hne
  by_cases he : entry = ""
  · rw [if_pos he]
  · rw [if_neg he]
    rw [if_neg he] at hne
    rcases hsp : splitN2 entry ':' with ⟨n, vo⟩
    rw [hsp] at hne
    cases vo with
    | none => rfl
    | some v =>
      exact headerValues_headerAdd_ne h _ (fun hc => hne (congrArg some hc))

/-- A fold of header-list entries none of which targets `key` leaves the
values under `key` unchanged. -/
theorem headerValues_entriesFold (entries : List String) (h : Header) (key : String)
    (hall : ∀ e ∈ entries, entryName e ≠ some (canonicalMIMEHeaderKey key)) :
    headerValues (entries.foldl addHeaderEntry h) key = headerValues h key := by
  induction entries generalizing h with
  | nil => rfl
  | cons e rest ih =>
    rw [List.foldl_cons, ih _ (fun x hx => hall x (by simp [hx])),
      headerValues_addHeaderEntry _ _ _ (hall e (by simp))]

/-- Adding a cookie only touches the `Cookie` header. -/
theorem headerValues_addCookieHeader (h : Header) (n v key : String)
    (hne : canonicalMIMEHeaderKey "Cookie" ≠ canonicalMIMEHeaderKey key) :
    headerValues (addCookieHeader h n v) key = headerValues h key := by
  unfold addCookieHeader
  by_cases hc : headerGet h "Cookie" ≠ ""
  · rw [if_pos hc]
    exact headerValues_headerSet_ne h _ hne
  · rw [if_neg hc]
    exact headerValues_headerSet_ne h _ hne

/-- Applying one cookie pair leaves non-`Cookie` keys unchanged. -/
theorem headerValues_addCookiePair (h : Header) (pair key : String)
    (hne : canonicalMIMEHeaderKey "Cookie" ≠ canonicalMIMEHeaderKey key) :
    headerValues (addCookiePair h pair) key = headerValues h key := by
  unfold addCookiePair
  by_cases hp : trimSpace pair = ""
  · rw [if_pos hp]
  · rw [if_neg hp]
    rcases hsp : splitN2 (trimSpace pair) '=' with ⟨n, vo⟩
    cases vo with
    | none => rfl
    | some v => exact headerValues_addCookieHeader h _ _ _ hne

/-- A fold of cookie pairs leaves non-`Cookie` keys unchanged. -/
theorem headerValues_pairFold (pairs : List String) (h : Header) (key : String)
    (hne : canonicalMIMEHeaderKey "Cookie" ≠ canonicalMIMEHeaderKey key) :
    headerValues (pairs.foldl addCookiePair h) key = headerValues h key := by
  induction pairs generalizing h with
  | nil => rfl
  | cons p rest ih =>
    rw [List.foldl_cons, ih _, headerValues_addCookiePair _ _ _ hne]

/-- Applying one cookie flag value leaves non-`Cookie` keys unchanged. -/
theorem headerValues_addCookieEntry (h : Header) (cookieStr key : String)
    (hne : canonicalMIMEHeaderKey "Cookie" ≠ canonicalMIMEHeaderKey key) :
    headerValues (addCookieEntry h cookieStr) key = headerValues h key :=
  headerValues_pairFold _ h key hne

/-- The whole cookie fold leaves non-`Cookie` keys unchanged. -/
theorem headerValues_cookieFold (cookies : List String) (h : Header) (key : String)
    (hne : canonicalMIMEHeaderKey "Cookie" ≠ canonicalMIMEHeaderKey key) :
    headerValues (cookies.foldl addCookieEntry h) key = headerValues h key := by
  induction cookies generalizing h with
  | nil => rfl
  | cons cs rest ih =>
    rw [List.foldl_cons, ih _, headerValues_addCookieEntry _ _ _ hne]

/-- A conditional `Header.Set` on a key with a different canonical form
leaves another key's values unchanged. -/
theorem headerValues_ifSet (c : Prop) [Decidable c] (h : Header) (k v key : String)
    (hne : canonicalMIMEHeaderKey k ≠ canonicalMIMEHeaderKey key) :
    headerValues (if c then headerSet h k v else h) key = headerValues h key := by
  by_cases hc : c
  · rw [if_pos hc]
    exact headerValues_headerSet_ne h v hne
  · rw [if_neg hc]

/-- The synthetic headers a body resolution can produce. -/
theorem resolveBody_snd_cases (opts : Options) :
    (resolveBody opts).2 = [] ∨
    (resolveBody opts).2 = ["Content-Type: application/x-www-form-urlencoded"] ∨
    (resolveBody opts).2 = ["Content-Type: application/json", "Accept: application/json"] := by
  unfold resolveBody
  split_ifs <;> simp

/-- C10 (amended): when a well-formed basic-auth credential and a
non-empty bearer token are both given, and no explicit header-list entry
itself targets Authorization, the built request carries exactly one
Authorization value, `Bearer <token>`: the bearer Set replaces the Basic
value instead of adding a second one.  (An explicit `Authorization: ...`
header entry would still be added after it — see the counterexample.) -/
theorem bearerOverridesBasicAuth (opts : Options) (args : List String) (req : GoRequest)
    (huser : opts.user ≠ "") (hcolon : (splitN2 opts.user ':').2.isSome = true)
    (hbearer : opts.oauth2Bearer ≠ "")
    (hhdr : ∀ e ∈ opts.header, entryName e ≠ some "Authorization")
    (hok : BuildRequest opts args = Except.ok req) :
    headerValues req.header "Authorization" = ["Bearer " ++ opts.oauth2Bearer] := by
  obtain ⟨-, -, -, -, -, hh⟩ := buildRequest_ok hok
  rw [hh]
  have hcanon : canonicalMIMEHeaderKey "Authorization" = "Authorization" := by decide
  have heh : ∀ e ∈ (if opts.get ∧ (resolveBody opts).1 ≠ "" then [] else (resolveBody opts).2),
      entryName e ≠ some "Authorization" := by
    by_cases hf : (opts.get : Prop) ∧ (resolveBody opts).1 ≠ ""
    · rw [if_pos hf]
      intro e he
      exact absurd he (List.not_mem_nil e)
    · rw [if_neg hf]
      rcases resolveBody_snd_cases opts with h | h | h <;> rw [h]
      · intro e he
        exact absurd he (List.not_mem_nil e)
      · intro e he
        rw [List.mem_singleton] at he
        subst he
        decide
      · intro e he
        rcases List.mem_cons.mp he with he | he
        · subst he
          decide
        · rw [List.mem_singleton] at he
          subst he
          decide
  simp only [applyHeaders]
  rw [headerValues_cookieFold _ _ _ (by decide),
    headerValues_entriesFold _ _ _ (by
      rw [hcanon]
      intro e he
      rcases List.mem_append.mp he with h | h
      · exact heh e h
      · exact hhdr e h),
    headerValues_ifSet _ _ _ _ _ (by decide),
    if_pos hbearer,
    headerValues_headerSet_self]

/-- Basic auth plus bearer token plus an explicit Authorization header
entry. -/
def authHeaderOpts : Options :=
  { request := "GET"
    url := "http://example.com"
    user := "u:p"
    oauth2Bearer := "tok"
    header := ["Authorization: X"] }

/-- Counterexample to C10 as stated: with basic auth and a bearer token
both given, an explicit `Authorization: X` header entry is added after the
bearer value, so the request carries two Authorization values, not exactly
one. -/
theorem bearerClaimCounterexample :
    (BuildRequest authHeaderOpts []).toOption.map
        (fun r => headerValues r.header "Authorization") = some ["Bearer tok", "X"] ∧
    (BuildRequest authHeaderOpts []).toOption.map
        (fun r => headerValues r.header "Authorization") ≠ some ["Bearer tok"] :=
  ⟨by decide, by decide⟩

/-- Basic auth and bearer token, no explicit header entries. -/
def bearerOpts : Options :=
  { request := "GET", url := "http://example.com", user := "alice:secret", oauth2Bearer := "mytoken" }

/-- The request `bearerOpts` builds: one Authorization value. -/
def bearerReq : GoRequest :=
  { method := "GET"
    url := "http://example.com"
    header := [("Authorization", ["Bearer mytoken"])]
    body := "" }

/-- Witness for C10 (amended): basic auth `alice:secret` with bearer
`mytoken` yields the single Authorization value `Bearer mytoken`. -/
theorem bearerOverridesBasicAuthWitness :
    BuildRequest bearerOpts [] = Except.ok bearerReq ∧
    headerValues bearerReq.header "Authorization" = ["Bearer " ++ bearerOpts.oauth2Bearer] :=
  ⟨by decide,
   bearerOverridesBasicAuth bearerOpts [] bearerReq (by decide) (by decide) (by decide)
     (by intro e he; exact absurd he (List.not_mem_nil e)) (by decide)⟩
